import Mathlib

/-!
Verification of the golem agent core against its specification.

This development shallowly embeds the Rust sources of the golem repository:

* `src/tools/shell.rs` — command classification (`is_blocked`,
  `is_write_command`, `segment_is_write`), output truncation
  (`truncate_output`), environment sanitization (`filtered_env`) and the
  pre-spawn policy portion of `ShellTool::execute`;
* `src/thinker/mod.rs` — `extract_json` and `parse_response` together with a
  model of `serde_json::from_str` restricted to the JSON fragment the agent
  exchanges (objects, arrays, strings, booleans, null, integer numbers);
* `src/engine/react.rs` — the `ReactEngine::run` loop over an abstract
  thinker and tool executor;
* `src/memory/` — the entry types that `run` appends.

Strings are modelled as `List Char`; Rust byte-offset operations use the
UTF-8 size of each character (`Char.utf8Size`), and a Rust `&str` slicing
operation that can panic is modelled as an `Option`-valued function where
`none` is the panic.
-/

/-- Rust `String` / `&str` values, modelled as their character sequences. -/
abbrev Str := List Char

/-- Character list of a Lean string literal (used to transcribe Rust literals). -/
def chars (s : String) : Str := s.data

/-- The character `LEFT CURLY BRACKET`. -/
def lbrace : Char := Char.ofNat 123

/-- The character `RIGHT CURLY BRACKET`. -/
def rbrace : Char := Char.ofNat 125

/-- ASCII whitespace as recognised by Rust `str::trim` on the command strings
that occur here (all inputs in this development are ASCII). -/
def isWsChar (c : Char) : Bool :=
  c == ' ' || c == '\t' || c == '\n' || c == '\r' || c == Char.ofNat 11 || c == Char.ofNat 12

/-- Rust `str::trim`: remove leading and trailing whitespace. -/
def trimL (l : Str) : Str :=
  ((l.dropWhile isWsChar).reverse.dropWhile isWsChar).reverse

/-- ASCII lowercasing, the restriction of Rust `str::to_lowercase` to the
ASCII command strings and patterns used by the shell classifier. -/
def asciiLowerChar (c : Char) : Char :=
  if 65 ≤ c.toNat && c.toNat ≤ 90 then Char.ofNat (c.toNat + 32) else c

/-- Lowercase a whole string (Rust `str::to_lowercase` on ASCII data). -/
def asciiLowerL (l : Str) : Str := l.map asciiLowerChar

/-- Rust `str::strip_prefix`: remove `pre` from the front of `l` if present. -/
def stripHead : Str → Str → Option Str
  | l, [] => some l
  | [], _ :: _ => none
  | c :: cs, p :: ps => if c == p then stripHead cs ps else none

/-- Rust `str::strip_suffix`: remove `suf` from the end of `l` if present. -/
def stripTail (l suf : Str) : Option Str :=
  (stripHead l.reverse suf.reverse).map List.reverse

/-- Rust `str::starts_with`. -/
def startsWithL (l p : Str) : Bool := (stripHead l p).isSome

/-- Rust `str::contains` with a string pattern: substring search. -/
def containsL : Str → Str → Bool
  | l, nd =>
    startsWithL l nd ||
      match l with
      | [] => false
      | _ :: t => containsL t nd

/-- Rust `str::split` on a character class: split `l` at every character
satisfying `p`, keeping empty segments (as Rust does). -/
def splitOnPred (p : Char → Bool) : Str → List Str
  | [] => [[]]
  | c :: cs =>
    match splitOnPred p cs with
    | [] => [[]]
    | h :: t => if p c then [] :: h :: t else (c :: h) :: t

/-- Association-list lookup used to model querying the child environment. -/
def lookupL : List (Str × Str) → Str → Option Str
  | [], _ => none
  | (k, v) :: rest, key => if k == key then some v else lookupL rest key

/-! ## Shell tool (`src/tools/shell.rs`) -/

/-- The `BLOCKED_COMMANDS` table: substrings that make a command always
rejected. Transcribed from `src/tools/shell.rs`. -/
def blockedCommands : List Str :=
  [chars "rm -rf /",
   chars "rm -rf /*",
   chars "mkfs",
   chars "dd if=",
   chars ":()\x7b :|:& \x7d;:",
   chars "> /dev/sda",
   chars "chmod -R 777 /",
   chars "fork bomb",
   chars "shutdown",
   chars "reboot",
   chars "halt",
   chars "init 0",
   chars "init 6"]

/-- The `WRITE_PATTERNS` table: patterns that classify a command segment as a
write. Transcribed from `src/tools/shell.rs`. -/
def writePatterns : List Str :=
  [chars "rm ",
   chars "rmdir",
   chars "mv ",
   chars "cp ",
   chars "mkdir",
   chars "touch ",
   chars "chmod",
   chars "chown",
   chars "chgrp",
   chars "ln ",
   chars "install ",
   chars "dd ",
   chars "mkfs",
   chars "fdisk",
   chars "parted",
   chars "mount",
   chars "umount",
   chars "kill",
   chars "killall",
   chars "pkill",
   chars "systemctl start",
   chars "systemctl stop",
   chars "systemctl restart",
   chars "systemctl enable",
   chars "systemctl disable",
   chars "docker rm",
   chars "docker stop",
   chars "docker kill",
   chars "apt ",
   chars "yay ",
   chars "pacman -S",
   chars "pacman -R",
   chars "pip install",
   chars "cargo install",
   chars "npm install",
   chars "git push",
   chars "git commit",
   chars "git reset",
   chars "git checkout",
   chars "git merge",
   chars "git rebase",
   chars "curl.*-X POST",
   chars "curl.*-X PUT",
   chars "curl.*-X DELETE",
   chars "wget ",
   chars "> ",
   chars ">> ",
   chars "tee ",
   chars "sed -i",
   chars "truncate"]

/-- The `SAFE_ENV_VARS` allow-list for child-process environments. -/
def safeEnvVars : List Str :=
  [chars "PATH",
   chars "HOME",
   chars "USER",
   chars "SHELL",
   chars "LANG",
   chars "LC_ALL",
   chars "TERM",
   chars "TZ"]

/-- Shell execution mode (`ShellMode` in `src/tools/shell.rs`). -/
inductive ShellMode where
  | readOnly
  | readWrite
  deriving DecidableEq

/-- `ShellTool::is_blocked`: a command is always blocked when its lowercased
form contains one of the `BLOCKED_COMMANDS` entries. -/
def is_blocked (cmd : Str) : Bool :=
  blockedCommands.any (fun pat => containsL (asciiLowerL cmd) pat)

/-- `ShellTool::segment_is_write`: one segment of a command chain is a write
when it contains an output redirection, or when any `WRITE_PATTERNS` entry
matches its head, its head after `sudo `, or occurs anywhere inside it. -/
def segment_is_write (segment : Str) : Bool :=
  let seg := trimL segment
  if seg.isEmpty then false
  else if containsL seg (chars "> ") || containsL seg (chars ">>") then true
  else
    writePatterns.any (fun pat =>
      let segLower := asciiLowerL seg
      let patLower := asciiLowerL pat
      startsWithL segLower patLower ||
        startsWithL segLower (chars "sudo " ++ patLower) ||
        containsL segLower patLower)

/-- `ShellTool::is_write_command`: split the trimmed command on the pipe
character, then on all of the chain separators, and report a write if any
segment is classified as one. -/
def is_write_command (cmd : Str) : Bool :=
  let trimmed := trimL cmd
  (splitOnPred (fun c => c == '|') trimmed).any (fun s => segment_is_write (trimL s)) ||
    (splitOnPred (fun c => c == ';' || c == '&' || c == '|') trimmed).any
      (fun s => segment_is_write (trimL s))

/-- UTF-8 byte length of a character sequence (Rust `str::len`). -/
def utf8Len (l : Str) : Nat := (l.map Char.utf8Size).sum

/-- Rust byte slicing `&s[..n]`: `some` prefix when the byte offset `n` lands
exactly on a character boundary, `none` when the slice operation panics
because `n` splits a multi-byte code point. -/
def takeBytes : Str → Nat → Option Str
  | _, 0 => some []
  | [], _ + 1 => none
  | c :: cs, n + 1 =>
    if c.utf8Size ≤ n + 1 then
      (takeBytes cs (n + 1 - c.utf8Size)).map (fun pre => c :: pre)
    else none

/-- The literal truncation marker appended by `ShellTool::truncate_output`,
with `shown` instantiated to `max_bytes` exactly as the Rust format call does. -/
def truncMarker (shown total : Nat) : Str :=
  chars "\n\n[truncated: showing " ++ chars (toString shown) ++ chars "/" ++
    chars (toString total) ++ chars " bytes]"

/-- `ShellTool::truncate_output`. The Rust code first slices the output at
`max_bytes` (`&output[..max_bytes]`, which panics when the offset splits a
code point — modelled as `none`), then searches for the last character
boundary inside the already-valid slice, then appends the marker. -/
def truncate_output (output : Str) (maxBytes : Nat) : Option Str :=
  if utf8Len output ≤ maxBytes then some output
  else
    match takeBytes output maxBytes with
    | none => none
    | some truncated => some (truncated ++ truncMarker maxBytes (utf8Len output))

/-- `ShellTool::filtered_env`: the ambient environment (a map from variable
names to optional values) restricted to `SAFE_ENV_VARS`, in allow-list order.
Because `execute` spawns the child with `env_clear()` followed by
`envs(filtered_env())`, this list is exactly the child environment. -/
def filtered_env (env : Str → Option Str) : List (Str × Str) :=
  safeEnvVars.filterMap (fun key => (env key).map (fun val => (key, val)))

/-- Outcome of the policy checks that `ShellTool::execute` runs before any
process is spawned. -/
inductive GateResult where
  | rejected (msg : Str)
  | proceed
  deriving DecidableEq

/-- Error message for a deny-list hit in `ShellTool::execute`. -/
def denyListMsg : Str := chars "blocked: command is on the deny list"

/-- Error message for a write command in read-only mode in `ShellTool::execute`. -/
def readOnlyMsg : Str :=
  chars "blocked: write operation not allowed in read-only mode. Start golem with --allow-write to enable write operations."

/-- The pre-spawn policy phase of `ShellTool::execute`: the deny list is
checked first in every mode, then write classification is enforced in
read-only mode; only then does the code go on to confirmation and spawning. -/
def execute_gate (mode : ShellMode) (cmd : Str) : GateResult :=
  if is_blocked cmd then .rejected denyListMsg
  else if mode == ShellMode.readOnly && is_write_command cmd then .rejected readOnlyMsg
  else .proceed

/-! ## JSON values and the serde parser model (`serde_json`) -/

/-- JSON values as produced by `serde_json::from_str::<Value>` on the
fragment golem exchanges. Numbers are restricted to integers: the agent
protocol only carries integer token counts and argument scalars, and no
claim depends on floating-point numbers. Object fields keep last-wins
duplicate handling via `objInsert`. -/
inductive Json where
  | null
  | bool (b : Bool)
  | num (n : Int)
  | str (s : Str)
  | arr (xs : List Json)
  | obj (fields : List (Str × Json))

/-- Field lookup, `serde_json::Value::get`: `none` on non-objects. -/
def Json.get (j : Json) (key : Str) : Option Json :=
  match j with
  | .obj fields => lookupField fields key
  | _ => none
where
  lookupField : List (Str × Json) → Str → Option Json
    | [], _ => none
    | (k, v) :: rest, key => if k == key then some v else lookupField rest key

/-- Insert a field, replacing an existing binding (serde maps keep one value
per key, last write wins). -/
def objInsert (fields : List (Str × Json)) (k : Str) (v : Json) : List (Str × Json) :=
  match fields with
  | [] => [(k, v)]
  | (k0, v0) :: rest => if k0 == k then (k0, v) :: rest else (k0, v0) :: objInsert rest k v

/-- Is this value a JSON string? (`Value::as_str().is_some()`). -/
def Json.isStr : Json → Bool
  | .str _ => true
  | _ => false

/-- Is this value a JSON object? (`Value::as_object().is_some()`). -/
def Json.isObj : Json → Bool
  | .obj _ => true
  | _ => false

/-- Escape one character in a serialized JSON string (`serde_json` compact
form for the characters that occur in this development). -/
def escapeChar (c : Char) : Str :=
  if c == '"' then ['\\', '"']
  else if c == '\\' then ['\\', '\\']
  else if c == '\n' then ['\\', 'n']
  else if c == '\t' then ['\\', 't']
  else if c == '\r' then ['\\', 'r']
  else [c]

mutual

/-- Compact serialization, `serde_json::Value::to_string` (used by
`parse_response` to stringify non-string argument values). -/
def Json.serialize : Json → Str
  | .null => chars "null"
  | .bool true => chars "true"
  | .bool false => chars "false"
  | .num n => chars (toString n)
  | .str s => '"' :: (s.map escapeChar).flatten ++ ['"']
  | .arr xs => '[' :: serializeElems xs ++ [']']
  | .obj fields => lbrace :: serializeFields fields ++ [rbrace]

/-- Serialize array elements, comma separated. -/
def serializeElems : List Json → Str
  | [] => []
  | [x] => Json.serialize x
  | x :: y :: rest => Json.serialize x ++ ',' :: serializeElems (y :: rest)

/-- Serialize object fields, comma separated. -/
def serializeFields : List (Str × Json) → Str
  | [] => []
  | [(k, v)] => '"' :: (k.map escapeChar).flatten ++ '"' :: ':' :: Json.serialize v
  | (k, v) :: f :: rest =>
    '"' :: (k.map escapeChar).flatten ++ '"' :: ':' :: Json.serialize v ++
      ',' :: serializeFields (f :: rest)

end

/-- JSON insignificant whitespace (space, tab, newline, carriage return). -/
def isJsonWs (c : Char) : Bool :=
  c == ' ' || c == '\t' || c == '\n' || c == '\r'

/-- Skip JSON whitespace. -/
def skipJsonWs (l : Str) : Str := l.dropWhile isJsonWs

/-- Decode one escape character inside a JSON string literal (`\uXXXX`
escapes are not modelled; no input in this development uses them). -/
def decodeEscape (e : Char) : Option Char :=
  if e == '"' then some '"'
  else if e == '\\' then some '\\'
  else if e == '/' then some '/'
  else if e == 'n' then some '\n'
  else if e == 't' then some '\t'
  else if e == 'r' then some '\r'
  else if e == 'b' then some (Char.ofNat 8)
  else if e == 'f' then some (Char.ofNat 12)
  else none

/-- Parse the body of a JSON string literal after the opening quote,
returning the decoded contents and the input after the closing quote. -/
def parseStringBody : Str → Option (Str × Str)
  | [] => none
  | c :: rest =>
    if c == '"' then some ([], rest)
    else if c == '\\' then
      match rest with
      | [] => none
      | e :: rest2 =>
        match decodeEscape e with
        | some d => (parseStringBody rest2).map (fun pr => (d :: pr.1, pr.2))
        | none => none
    else (parseStringBody rest).map (fun pr => (c :: pr.1, pr.2))

/-- Parse a JSON integer numeral (optional minus sign, digits, no leading
zeros); floating-point forms are rejected by the model. -/
def parseNumber (l : Str) : Option (Int × Str) :=
  let (neg, body) :=
    match l with
    | '-' :: rest => (true, rest)
    | _ => (false, l)
  let digits := body.takeWhile Char.isDigit
  let rest := body.dropWhile Char.isDigit
  if digits.isEmpty then none
  else if 1 < digits.length && digits.headD ' ' == '0' then none
  else
    match rest with
    | '.' :: _ => none
    | 'e' :: _ => none
    | 'E' :: _ => none
    | _ =>
      let mag : Nat := digits.foldl (fun a c => a * 10 + (c.toNat - 48)) 0
      some (if neg then -(mag : Int) else (mag : Int), rest)

mutual

/-- Parse one JSON value at the head of the input. `fuel` dominates the
recursion depth; the top-level entry point supplies `length + 1`, which is
always sufficient because every recursive call first consumes a character. -/
def parseValue : Nat → Str → Option (Json × Str)
  | 0, _ => none
  | _ + 1, [] => none
  | f + 1, c :: rest =>
    if c == lbrace then
      let body := skipJsonWs rest
      match body with
      | d :: rest2 =>
        if d == rbrace then some (.obj [], rest2)
        else
          match parseMembers f body with
          | some (fields, rest3) =>
            some (.obj (fields.foldl (fun acc kv => objInsert acc kv.1 kv.2) []), rest3)
          | none => none
      | [] => none
    else if c == '[' then
      let body := skipJsonWs rest
      match body with
      | d :: rest2 =>
        if d == ']' then some (.arr [], rest2)
        else
          match parseElems f body with
          | some (xs, rest3) => some (.arr xs, rest3)
          | none => none
      | [] => none
    else if c == '"' then
      match parseStringBody rest with
      | some (s, rest2) => some (.str s, rest2)
      | none => none
    else if c == 't' then
      (stripHead (c :: rest) (chars "true")).map (fun r => (.bool true, r))
    else if c == 'f' then
      (stripHead (c :: rest) (chars "false")).map (fun r => (.bool false, r))
    else if c == 'n' then
      (stripHead (c :: rest) (chars "null")).map (fun r => (.null, r))
    else if c == '-' || c.isDigit then
      (parseNumber (c :: rest)).map (fun pr => (.num pr.1, pr.2))
    else none

/-- Parse one or more `"key": value` members of a JSON object, ending after
the closing brace. -/
def parseMembers : Nat → Str → Option (List (Str × Json) × Str)
  | 0, _ => none
  | f + 1, input =>
    match input with
    | '"' :: rest =>
      match parseStringBody rest with
      | some (key, rest2) =>
        match skipJsonWs rest2 with
        | ':' :: rest3 =>
          match parseValue f (skipJsonWs rest3) with
          | some (v, rest4) =>
            match skipJsonWs rest4 with
            | ',' :: rest5 =>
              match parseMembers f (skipJsonWs rest5) with
              | some (fields, rest6) => some ((key, v) :: fields, rest6)
              | none => none
            | d :: rest5 =>
              if d == rbrace then some ([(key, v)], rest5) else none
            | [] => none
          | none => none
        | _ => none
      | none => none
    | _ => none

/-- Parse one or more elements of a JSON array, ending after the closing
bracket. -/
def parseElems : Nat → Str → Option (List Json × Str)
  | 0, _ => none
  | f + 1, input =>
    match parseValue f input with
    | some (v, rest) =>
      match skipJsonWs rest with
      | ',' :: rest2 =>
        match parseElems f (skipJsonWs rest2) with
        | some (xs, rest3) => some (v :: xs, rest3)
        | none => none
      | ']' :: rest2 => some ([v], rest2)
      | _ => none
    | none => none

end

/-- Model of `serde_json::from_str::<Value>`: parse a complete JSON value and
require that nothing but whitespace follows — trailing non-whitespace text is
a parse error (serde's `trailing characters`). -/
def serde_from_str (s : Str) : Option Json :=
  match parseValue (s.length + 1) (skipJsonWs s) with
  | some (v, rest) => if (skipJsonWs rest).isEmpty then some v else none
  | none => none

/-! ## Response parsing (`src/thinker/mod.rs`) -/

/-- A single tool invocation request (`ToolCall`). Rust's `HashMap` of
arguments is modelled as an association list in decode order. -/
structure ToolCall where
  tool : Str
  args : List (Str × Str)
  deriving DecidableEq

/-- What the thinker produces each iteration (`Step`). -/
inductive Step where
  | act (thought : Str) (calls : List ToolCall)
  | finish (thought : Str) (answer : Str)
  deriving DecidableEq

/-- The fenced/brace extraction on already-trimmed text; see `extract_json`. -/
def extractCore (trimmed : Str) : Str :=
  match (stripHead trimmed (chars "```json")).bind
      (fun a => (stripTail a (chars "```")).map trimL) with
  | some j => j
  | none =>
    match (stripHead trimmed (chars "```")).bind
        (fun a => (stripTail a (chars "```")).map trimL) with
    | some j => j
    | none =>
      if startsWithL trimmed [lbrace] then trimmed
      else
        match List.findIdx? (fun c => c == lbrace) trimmed,
            (List.findIdx? (fun c => c == rbrace) trimmed.reverse).map
              (fun i => trimmed.length - 1 - i) with
        | some s, some e =>
          if s < e then (trimmed.drop s).take (e - s + 1) else trimmed
        | _, _ => trimmed

/-- `extract_json` from `src/thinker/mod.rs`: trim, strip markdown fences,
and — only when the trimmed text does not itself start with a brace — take
the substring from the first opening brace to the last closing brace when
they are in order. -/
def extract_json (text : Str) : Str :=
  extractCore (trimL text)

/-- The `thought` field: optional, non-string or missing becomes empty. -/
def thoughtOf (v : Json) : Str :=
  match Json.get v (chars "thought") with
  | some (.str s) => s
  | _ => []

/-- The `answer` value as `parse_response` reads it:
`answer.as_str().unwrap_or("")`, so any non-string value becomes the empty
string. -/
def answerString (j : Json) : Str :=
  match j with
  | .str s => s
  | _ => []

/-- Stringify one argument value: strings kept as-is, anything else
serialized compactly (`other.to_string()`). -/
def argString (j : Json) : Str :=
  match j with
  | .str s => s
  | other => Json.serialize other

/-- Decode one element of `action.calls`: kept only when `tool` is a string
and an `args` field is present; a non-object `args` yields an empty map. -/
def decodeCall (call : Json) : Option ToolCall :=
  match Json.get call (chars "tool") with
  | some (.str tool) =>
    match Json.get call (chars "args") with
    | some (.obj fields) => some ⟨tool, fields.map (fun kv => (kv.1, argString kv.2))⟩
    | some _ => some ⟨tool, []⟩
    | none => none
  | _ => none

/-- Error message for an action whose decoded call list is empty. -/
def noValidMsg (text : Str) : Str :=
  chars "LLM returned action with no valid tool calls: " ++ text

/-- Error message when the response has neither answer nor action. -/
def neitherMsg (text : Str) : Str :=
  chars "LLM response is neither an answer nor a tool call: " ++ text

/-- Error message when the extracted text is not valid JSON (the serde error
detail is not modelled, only the failure). -/
def notJsonMsg (text : Str) : Str :=
  chars "failed to parse LLM response as JSON; raw: " ++ text

/-- The decoding phase of `parse_response`, applied to the JSON value the
serde model produced. `text` is the raw response, used in error messages. -/
def decodeStep (text : Str) (v : Json) : Except Str Step :=
  match Json.get v (chars "answer") with
  | some a => .ok (.finish (thoughtOf v) (answerString a))
  | none =>
    match Json.get v (chars "action") with
    | some action =>
      match Json.get action (chars "calls") with
      | some (.arr calls) =>
        let toolCalls := calls.filterMap decodeCall
        if toolCalls.isEmpty then .error (noValidMsg text)
        else .ok (.act (thoughtOf v) toolCalls)
      | _ => .error (neitherMsg text)
    | none => .error (neitherMsg text)

/-- `parse_response` from `src/thinker/mod.rs`: extract the JSON, parse it
with serde, then decode a `Step`. -/
def parse_response (text : Str) : Except Str Step :=
  match serde_from_str (extract_json text) with
  | some v => decodeStep text v
  | none => .error (notJsonMsg text)

/-- Boolean success test on an `Except`. -/
def exceptIsOk : Except Str Step → Bool
  | .ok _ => true
  | .error _ => false

/-! ## ReAct engine (`src/engine/react.rs`, `src/memory/mod.rs`) -/

/-- Outcome of one tool execution (`Outcome` in `src/tools/mod.rs`). -/
inductive Outcome where
  | success (out : Str)
  | error (err : Str)
  deriving DecidableEq

/-- Tool name paired with its outcome (`ToolResult`). -/
structure ToolResult where
  tool : Str
  outcome : Outcome
  deriving DecidableEq

/-- One entry of the per-task memory (`MemoryEntry` in `src/memory/mod.rs`). -/
inductive MemoryEntry where
  | task (content : Str)
  | iteration (thought : Str) (results : List ToolResult)
  | answer (thought : Str) (content : Str)
  deriving DecidableEq

/-- One entry of the cross-task session history (`SessionEntry`). -/
structure SessionEntry where
  task : Str
  answer : Str
  deriving DecidableEq

/-- Everything observable after `ReactEngine::run` finishes: the returned
result, the per-task memory, the session history, and how many times the
thinker was consulted. -/
structure RunResult where
  result : Except Str Str
  memory : List MemoryEntry
  session : List SessionEntry
  thinkCalls : Nat

/-- The failure message produced when the iteration cap is exhausted
(`bail!("max iterations ({}) reached", ...)`). -/
def maxIterMsg (m : Nat) : Str :=
  chars "max iterations (" ++ chars (toString m) ++ chars ") reached"

/-- The loop body of `ReactEngine::run`. The thinker is an abstract function
of the iteration index and the current per-task history (the `Context` it is
given consists of the task, that history, and the tool catalog); `exec` is
the abstract registry executor including the per-call timeout, and results
are collected in call order (`join_all`). On `Finish` the engine appends an
`Answer` entry and returns; the session history is never touched by the loop. -/
def runAux (maxIter : Nat) (think : Nat → List MemoryEntry → Step)
    (exec : ToolCall → ToolResult) :
    Nat → Nat → List MemoryEntry → List SessionEntry → Nat → RunResult
  | _, 0, mem, session, calls => ⟨.error (maxIterMsg maxIter), mem, session, calls⟩
  | iter, r + 1, mem, session, calls =>
    match think iter mem with
    | .finish thought answer =>
      ⟨.ok answer, mem ++ [.answer thought answer], session, calls + 1⟩
    | .act thought cs =>
      runAux maxIter think exec (iter + 1) r
        (mem ++ [.iteration thought (cs.map exec)]) session (calls + 1)

/-- `ReactEngine::run(task)`: clear the per-task memory, store the `Task`
entry, then iterate up to `max_iterations` times. -/
def react_run (maxIter : Nat) (think : Nat → List MemoryEntry → Step)
    (exec : ToolCall → ToolResult) (task : Str) (session : List SessionEntry) : RunResult :=
  runAux maxIter think exec 0 maxIter [.task task] session 0

/-- Is this step an `Act`? -/
def Step.isAct : Step → Bool
  | .act _ _ => true
  | .finish _ _ => false

/-! ## Claim-side definitions and concrete inputs -/

/-- The segment classification rule exactly as the specification states it
(claim C3): a segment is a write iff it contains `> ` or `>>`, or — ignoring
a leading `sudo` — its head matches an entry of the write-prefix list. This
definition follows the spec's words, to be compared with the source-derived
`segment_is_write`. -/
def segment_is_write_claim (segment : Str) : Bool :=
  let seg := trimL segment
  containsL seg (chars "> ") || containsL seg (chars ">>") ||
    writePatterns.any (fun pat =>
      startsWithL (asciiLowerL seg) (asciiLowerL pat) ||
        startsWithL (asciiLowerL seg) (chars "sudo " ++ asciiLowerL pat))

/-- A thinker that always produces an action (used to exercise the iteration
cap). -/
def alwaysActThink : Nat → List MemoryEntry → Step := fun _ _ => .act [] []

/-- A thinker that immediately finishes with thought `done` and answer `42`
(the spec's `finish-immediately` scenario). -/
def finishThink : Nat → List MemoryEntry → Step :=
  fun _ _ => .finish (chars "done") (chars "42")

/-- A registry executor stub: every call fails with a constant error. The
engine claims proved here hold for every executor; this one is used for
concrete evaluations. -/
def constExec : ToolCall → ToolResult :=
  fun c => ⟨c.tool, .error (chars "unknown tool")⟩

/-- A model response that IS a JSON object followed only by trailing prose. -/
def c4cexText : String := "\x7b\"answer\": \"42\"\x7d Hope that helps!"

/-- The JSON object at the front of `c4cexText`, well formed on its own. -/
def c4cexJson : String := "\x7b\"answer\": \"42\"\x7d"

/-- A model response with prose both before and after the JSON object. -/
def c4wText : String := "Sure: \x7b\"answer\": \"42\"\x7d Hope!"

/-- The value the serde model yields for the braced substring of `c4wText`. -/
def c4wVal : Json := .obj [(chars "answer", .str (chars "42"))]

/-- A response whose `answer` field is the number `42`, not a string. -/
def c5cexText : String := "\x7b\"answer\": 42\x7d"

/-- A response carrying both an `answer` and an `action`. -/
def c5wText : String :=
  "\x7b\"thought\": \"I know\", \"answer\": \"42\", \"action\": \x7b\"calls\": [\x7b\"tool\": \"shell\", \"args\": \x7b\x7d\x7d]\x7d\x7d"

/-- The value the serde model yields for `c5wText`. -/
def c5wVal : Json :=
  .obj [(chars "thought", .str (chars "I know")),
        (chars "answer", .str (chars "42")),
        (chars "action", .obj [(chars "calls",
          .arr [.obj [(chars "tool", .str (chars "shell")), (chars "args", .obj [])]])])]

/-- A well-formed action response with one shell call. -/
def c6actText : String :=
  "\x7b\"thought\": \"x\", \"action\": \x7b\"calls\": [\x7b\"tool\": \"shell\", \"args\": \x7b\"command\": \"ls\"\x7d\x7d]\x7d\x7d"

/-- The value the serde model yields for `c6actText`. -/
def c6actVal : Json :=
  .obj [(chars "thought", .str (chars "x")),
        (chars "action", .obj [(chars "calls",
          .arr [.obj [(chars "tool", .str (chars "shell")),
                      (chars "args", .obj [(chars "command", .str (chars "ls"))])]])])]

/-- An action response whose `calls` array is empty. -/
def c6emptyText : String := "\x7b\"thought\": \"hmm\", \"action\": \x7b\"calls\": []\x7d\x7d"

/-- The value the serde model yields for `c6emptyText`. -/
def c6emptyVal : Json :=
  .obj [(chars "thought", .str (chars "hmm")),
        (chars "action", .obj [(chars "calls", .arr [])])]

/-- An action response whose single call has a string `tool` but no `args`
field at all. -/
def c10Text : String := "\x7b\"action\": \x7b\"calls\": [\x7b\"tool\": \"shell\"\x7d]\x7d\x7d"

/-- The value the serde model yields for `c10Text`. -/
def c10Val : Json :=
  .obj [(chars "action", .obj [(chars "calls",
    .arr [.obj [(chars "tool", .str (chars "shell"))]])])]

/-- A concrete ambient environment carrying one allow-listed variable and one
secret. -/
def envWithSecret : Str → Option Str :=
  fun k =>
    if k = chars "PATH" then some (chars "/usr/bin")
    else if k = chars "AWS_SECRET_ACCESS_KEY" then some (chars "hunter2") else none

/-- The same environment with the secret removed: it agrees with
`envWithSecret` on every allow-listed variable. -/
def envWithoutSecret : Str → Option Str :=
  fun k => if k = chars "PATH" then some (chars "/usr/bin") else none

/-! ## Helper lemmas -/

theorem containsL_of_startsWith (l p : Str) (h : startsWithL l p = true) :
    containsL l p = true := by
  cases l <;> simp [containsL, h]

theorem containsL_cons (c : Char) (t p : Str) (h : containsL t p = true) :
    containsL (c :: t) p = true := by
  simp [containsL, h]

theorem containsL_of_startsWith_append (q : Str) :
    ∀ l p : Str, startsWithL l (q ++ p) = true → containsL l p = true := by
  induction q with
  | nil => intro l p h; exact containsL_of_startsWith l p h
  | cons a q ih =>
    intro l p h
    cases l with
    | nil => simp [startsWithL, stripHead] at h
    | cons c cs =>
      rw [List.cons_append] at h
      unfold startsWithL stripHead at h
      by_cases hc : (c == a) = true
      · rw [hc] at h
        simp only [if_true] at h
        exact containsL_cons c cs p (ih cs p h)
      · rw [Bool.not_eq_true] at hc
        rw [hc] at h
        simp at h

theorem stripHead_append (p : Str) :
    ∀ l q : Str, stripHead l (p ++ q) = (stripHead l p).bind (fun m => stripHead m q) := by
  induction p with
  | nil => intro l q; simp [stripHead]
  | cons a ps ih =>
    intro l q
    cases l with
    | nil => simp [stripHead]
    | cons c cs =>
      cases hc : c == a with
      | true =>
        simp only [List.cons_append, stripHead, hc, if_true]
        exact ih cs q
      | false => simp [stripHead, hc]

theorem stripHead_eq_none_of_not_startsWith (l p : Str)
    (h : startsWithL l p = false) : stripHead l p = none := by
  unfold startsWithL at h
  cases hs : stripHead l p with
  | none => rfl
  | some m => rw [hs] at h; simp at h

theorem isEmpty_false_ne_nil {α : Type} {l : List α} (h : l.isEmpty = false) : l ≠ [] := by
  cases l with
  | nil => simp at h
  | cons a t => exact List.cons_ne_nil a t

theorem lookupL_filterMap_not_mem (vars : List Str) (env : Str → Option Str) (V : Str)
    (h : V ∉ vars) :
    lookupL (vars.filterMap (fun key => (env key).map (fun val => (key, val)))) V = none := by
  induction vars with
  | nil => rfl
  | cons k vs ih =>
    have hne : k ≠ V := fun hk => h (hk ▸ List.mem_cons_self k vs)
    have hmem : V ∉ vs := fun hv => h (List.mem_cons_of_mem k hv)
    cases he : env k with
    | none => simpa [List.filterMap_cons, he] using ih hmem
    | some v =>
      rw [List.filterMap_cons, he]
      simp only [Option.map_some']
      have : (k == V) = false := beq_eq_false_iff_ne.mpr hne
      simp only [lookupL, this, if_false]
      exact ih hmem

theorem filterMap_env_congr (vars : List Str) (env1 env2 : Str → Option Str)
    (h : ∀ k ∈ vars, env1 k = env2 k) :
    vars.filterMap (fun key => (env1 key).map (fun val => (key, val))) =
      vars.filterMap (fun key => (env2 key).map (fun val => (key, val))) := by
  induction vars with
  | nil => rfl
  | cons k vs ih =>
    rw [List.filterMap_cons, List.filterMap_cons, h k (List.mem_cons_self k vs),
      ih (fun x hx => h x (List.mem_cons_of_mem k hx))]

theorem write_clause_eq_contains (l p : Str) :
    (startsWithL l p || startsWithL l (chars "sudo " ++ p) || containsL l p) =
      containsL l p := by
  cases h : containsL l p with
  | true => simp [h]
  | false =>
    have h1 : startsWithL l p = false := by
      cases hs : startsWithL l p with
      | false => rfl
      | true => rw [containsL_of_startsWith l p hs] at h; exact h
    have h2 : startsWithL l (chars "sudo " ++ p) = false := by
      cases hs : startsWithL l (chars "sudo " ++ p) with
      | false => rfl
      | true =>
        rw [containsL_of_startsWith_append (chars "sudo ") l p hs] at h
        exact h
    simp [h1, h2, h]

theorem runAux_calls_le (m : Nat) (think : Nat → List MemoryEntry → Step)
    (exec : ToolCall → ToolResult) :
    ∀ (r iter : Nat) (mem : List MemoryEntry) (session : List SessionEntry) (calls : Nat),
      (runAux m think exec iter r mem session calls).thinkCalls ≤ calls + r := by
  intro r
  induction r with
  | zero => intro iter mem session calls; exact Nat.le_refl _
  | succ r ih =>
    intro iter mem session calls
    unfold runAux
    cases ht : think iter mem with
    | finish thought answer => simp
    | act thought cs =>
      exact Nat.le_trans
        (ih (iter + 1) (mem ++ [.iteration thought (cs.map exec)]) session (calls + 1))
        (by omega)

theorem runAux_always_act (m : Nat) (think : Nat → List MemoryEntry → Step)
    (exec : ToolCall → ToolResult) (h : ∀ i hist, (think i hist).isAct = true) :
    ∀ (r iter : Nat) (mem : List MemoryEntry) (session : List SessionEntry) (calls : Nat),
      (runAux m think exec iter r mem session calls).result = .error (maxIterMsg m) ∧
      (runAux m think exec iter r mem session calls).thinkCalls = calls + r := by
  intro r
  induction r with
  | zero => intro iter mem session calls; exact ⟨rfl, rfl⟩
  | succ r ih =>
    intro iter mem session calls
    have hstep := h iter mem
    cases ht : think iter mem with
    | finish thought answer => rw [ht] at hstep; simp [Step.isAct] at hstep
    | act thought cs =>
      have hrec := ih (iter + 1) (mem ++ [.iteration thought (cs.map exec)]) session (calls + 1)
      constructor
      · unfold runAux
        rw [ht]
        exact hrec.1
      · unfold runAux
        rw [ht]
        exact hrec.2.trans (by omega)

/-! ## Claim theorems -/

/-- Claim C1 (code bug). When the thinker returns `Finish` the engine appends
an `Answer` entry and returns the answer, but `ReactEngine::run` never calls
`store_session`: at the spec's `finish-immediately` input the session history
is left empty, although the claim (and the repository's own test
`session_entry_stored_after_task`) requires one `SessionEntry` per
successful run. -/
theorem react_run_finish_no_session_entry :
    react_run 20 finishThink constExec (chars "what is 6 * 7") [] =
      ⟨.ok (chars "42"),
       [.task (chars "what is 6 * 7"), .answer (chars "done") (chars "42")],
       [], 1⟩ :=
  rfl

/-- Claim C2 (code bug). `truncate_output` is not total: when the byte bound
falls inside a multi-byte code point, the slice `&output[..max_bytes]`
performed before the boundary search panics (modelled as `none`) — here on a
two-byte character with bound 1. On boundary-compatible inputs the function
behaves as claimed: unchanged short output, and a cut plus marker otherwise. -/
theorem truncate_output_split_boundary :
    truncate_output [Char.ofNat 233] 1 = none ∧
    truncate_output (chars "hello") 10 = some (chars "hello") ∧
    truncate_output (chars "hello") 3 = some (chars "hel" ++ truncMarker 3 5) :=
  ⟨rfl, rfl, rfl⟩

/-- Claim C3 (counterexample). The segment `echo mkdir` contains no
redirection and its head (`echo`, with or without `sudo`) matches no entry of
the write-prefix list, yet the code classifies it as a write, because the
classifier also accepts a pattern occurring anywhere in the segment. -/
theorem segment_is_write_head_only_cex :
    segment_is_write (chars "echo mkdir") = true ∧
    segment_is_write_claim (chars "echo mkdir") = false ∧
    is_write_command (chars "echo mkdir") = true := by
  refine ⟨by decide, by decide, by decide⟩

/-- Claim C3 (amended). A non-empty trimmed segment is classified "write"
exactly when it contains `> ` or `>>` (no escape analysis), or when its
lowercased form contains some entry of the curated pattern list as a
substring anywhere — the head match and the sudo-prefixed head match of the
original claim are special cases of that substring test. -/
theorem segment_is_write_contains_anywhere (seg : Str) :
    segment_is_write seg =
      (!(trimL seg).isEmpty &&
        (containsL (trimL seg) (chars "> ") || containsL (trimL seg) (chars ">>") ||
          writePatterns.any (fun pat =>
            containsL (asciiLowerL (trimL seg)) (asciiLowerL pat)))) := by
  unfold segment_is_write
  cases hempty : (trimL seg).isEmpty with
  | true => simp [hempty]
  | false =>
    simp only [hempty, Bool.not_false, Bool.true_and, Bool.false_eq_true, if_false]
    cases h1 : containsL (trimL seg) (chars "> ") with
    | true => simp [h1]
    | false =>
      cases h2 : containsL (trimL seg) (chars ">>") with
      | true => simp [h1, h2]
      | false =>
        simp only [h1, h2, Bool.or_self, Bool.false_eq_true, if_false, Bool.false_or]
        apply congrArg
        funext pat
        exact write_clause_eq_contains (asciiLowerL (trimL seg)) (asciiLowerL pat)

/-- Claim C4 (counterexample). A response that IS a well-formed JSON object
followed only by trailing prose does not parse: because the trimmed text
starts with a brace, `extract_json` skips the first-brace/last-brace
extraction (even though here the first brace at index 0 precedes the last
closing brace at index 15) and hands the whole text — object plus prose — to
serde, which rejects the trailing characters. -/
theorem extract_json_trailing_prose_cex :
    (serde_from_str (chars c4cexJson)).isSome = true ∧
    List.findIdx? (fun c => c == lbrace) (trimL (chars c4cexText)) = some 0 ∧
    (List.findIdx? (fun c => c == rbrace) (trimL (chars c4cexText)).reverse).map
      (fun i => (trimL (chars c4cexText)).length - 1 - i) = some 15 ∧
    extract_json (chars c4cexText) = trimL (chars c4cexText) ∧
    exceptIsOk (parse_response (chars c4cexText)) = false := by
  refine ⟨by decide, by decide, by decide, by decide, by decide⟩

/-- Claim C4 (amended). The first-brace/last-brace extraction applies only
when the trimmed response does not itself begin with a brace (and is not
fence-wrapped): in that case the substring from the first brace to the last
closing brace, inclusive and in order, is what gets parsed, so prose before
the object — with or without further prose after it — is accepted whenever
that substring is a well-formed object. A response that begins with the JSON
object and is followed by trailing prose is instead passed whole to the JSON
parser and fails. -/
theorem extract_json_prose_before (t : Str) (s e : Nat) (v : Json)
    (hfence : startsWithL (trimL t) (chars "```") = false)
    (hbrace : startsWithL (trimL t) [lbrace] = false)
    (hs : List.findIdx? (fun c => c == lbrace) (trimL t) = some s)
    (he : (List.findIdx? (fun c => c == rbrace) (trimL t).reverse).map
      (fun i => (trimL t).length - 1 - i) = some e)
    (hlt : s < e)
    (hv : serde_from_str (((trimL t).drop s).take (e - s + 1)) = some v) :
    extract_json t = ((trimL t).drop s).take (e - s + 1) ∧
    parse_response t = decodeStep t v := by
  have hnone : stripHead (trimL t) (chars "```") = none :=
    stripHead_eq_none_of_not_startsWith _ _ hfence
  have hjson : stripHead (trimL t) (chars "```json") = none := by
    have hsplit : chars "```json" = chars "```" ++ chars "json" := by decide
    rw [hsplit, stripHead_append, hnone]
    rfl
  have hex : extract_json t = ((trimL t).drop s).take (e - s + 1) := by
    unfold extract_json extractCore
    rw [hjson, hnone]
    simp only [Option.none_bind]
    rw [hbrace]
    simp only [Bool.false_eq_true, if_false]
    rw [hs, he]
    simp only [if_pos hlt]
  refine ⟨hex, ?_⟩
  unfold parse_response
  rw [hex, hv]

/-- Claim C4 (witness): the amended theorem applied to a concrete response
with prose on both sides of the object. -/
theorem extract_json_prose_before_witness :
    extract_json (chars c4wText) = ((trimL (chars c4wText)).drop 6).take (21 - 6 + 1) ∧
    parse_response (chars c4wText) = decodeStep (chars c4wText) c4wVal :=
  extract_json_prose_before (chars c4wText) 6 21 c4wVal
    (by decide) (by decide) (by decide) (by decide) (by decide) rfl

/-- Claim C5 (counterexample). For the response whose `answer` field is the
number `42`, `parse_response` returns `Finish` with the EMPTY answer string —
`answer.as_str().unwrap_or("")` — not the stringified `42` the claim
describes (stringification, shown by `Json.serialize`, would give `42`). -/
theorem answer_nonstring_empty_cex :
    parse_response (chars c5cexText) = .ok (.finish [] []) ∧
    Json.serialize (.num 42) = chars "42" ∧
    chars "42" ≠ ([] : Str) := by
  refine ⟨rfl, rfl, by decide⟩

/-- Claim C5 (amended). Whenever the extracted JSON object has an `answer`
field, `parse_response` returns `Finish` — even when an `action` field is
also present (answer beats action) — with a string answer taken verbatim and
any non-string answer replaced by the empty string (not by its
stringification). -/
theorem answer_priority :
    (∀ (text : Str) (v a : Json),
      serde_from_str (extract_json text) = some v →
      Json.get v (chars "answer") = some a →
      parse_response text = .ok (.finish (thoughtOf v) (answerString a))) ∧
    (∀ j : Json, Json.isStr j = false → answerString j = []) := by
  constructor
  · intro text v a hv ha
    unfold parse_response
    rw [hv]
    show decodeStep text v = _
    unfold decodeStep
    rw [ha]
  · intro j hj
    cases j with
    | str s => simp [Json.isStr] at hj
    | null => rfl
    | bool b => rfl
    | num n => rfl
    | arr xs => rfl
    | obj fields => rfl

/-- Claim C5 (witness): the amended theorem applied to a response carrying
both `answer` and `action`, and to the non-string value `7`. -/
theorem answer_priority_witness :
    parse_response (chars c5wText) =
      .ok (.finish (thoughtOf c5wVal) (answerString (.str (chars "42")))) ∧
    answerString (.num 7) = [] :=
  ⟨answer_priority.1 (chars c5wText) c5wVal (.str (chars "42")) rfl rfl,
   answer_priority.2 (.num 7) rfl⟩

theorem decodeStep_act_nonempty (text : Str) (v : Json) (th : Str) (cs : List ToolCall)
    (h : decodeStep text v = .ok (.act th cs)) : cs ≠ [] := by
  unfold decodeStep at h
  split at h
  · simp at h
  · split at h
    · split at h
      · dsimp only [] at h
        split at h
        · simp at h
        · rename_i hemp
          simp only [Except.ok.injEq, Step.act.injEq] at h
          obtain ⟨h1, h2⟩ := h
          rw [h2] at hemp
          simp only [Bool.not_eq_true] at hemp
          exact isEmpty_false_ne_nil hemp
      · simp at h
    · simp at h

/-- Claim C6 (confirmed). Every `Act` step that `parse_response` produces has
a non-empty call list, and an action whose `calls` array is empty is rejected
at parse time with the "no valid tool calls" error. -/
theorem act_calls_nonempty :
    (∀ (text th : Str) (cs : List ToolCall),
      parse_response text = .ok (.act th cs) → cs ≠ []) ∧
    (∀ (text : Str) (v act : Json),
      serde_from_str (extract_json text) = some v →
      Json.get v (chars "answer") = none →
      Json.get v (chars "action") = some act →
      Json.get act (chars "calls") = some (.arr []) →
      parse_response text = .error (noValidMsg text)) := by
  constructor
  · intro text th cs h
    unfold parse_response at h
    split at h
    · exact decodeStep_act_nonempty text _ th cs h
    · simp at h
  · intro text v act hv hans hact hcalls
    unfold parse_response
    rw [hv]
    show decodeStep text v = _
    unfold decodeStep
    simp [hans, hact, hcalls]

/-- Claim C6 (witness): a concrete one-call action parses to a non-empty
list, and a concrete empty-`calls` action fails with the parse error. -/
theorem act_calls_nonempty_witness :
    ([⟨chars "shell", [(chars "command", chars "ls")]⟩] : List ToolCall) ≠ [] ∧
    parse_response (chars c6emptyText) = .error (noValidMsg (chars c6emptyText)) :=
  ⟨act_calls_nonempty.1 (chars c6actText) (chars "x")
      [⟨chars "shell", [(chars "command", chars "ls")]⟩] rfl,
   act_calls_nonempty.2 (chars c6emptyText) c6emptyVal
      (.obj [(chars "calls", .arr [])]) rfl rfl rfl rfl⟩

/-- Claim C7 (counterexample). The command `rm -rf /` is classified as a
write command, and in read-only mode it is rejected — but with the deny-list
message, which does not mention read-only, because the blocklist check runs
first; the claim promises a read-only message for every write command. -/
theorem readonly_write_deny_message_cex :
    is_write_command (chars "rm -rf /") = true ∧
    execute_gate ShellMode.readOnly (chars "rm -rf /") = .rejected denyListMsg ∧
    containsL denyListMsg (chars "read-only") = false := by
  refine ⟨by decide, by decide, by decide⟩

/-- Claim C7 (amended). A command on the always-blocked list is rejected
before spawning in both modes (with the deny-list message); a write-classified
command that is NOT blocked is rejected before spawning in read-only mode
with a message that mentions read-only. -/
theorem execute_gate_policy (cmd : Str) :
    (is_blocked cmd = true →
      execute_gate ShellMode.readWrite cmd = .rejected denyListMsg ∧
      execute_gate ShellMode.readOnly cmd = .rejected denyListMsg) ∧
    (is_blocked cmd = false → is_write_command cmd = true →
      execute_gate ShellMode.readOnly cmd = .rejected readOnlyMsg ∧
      containsL readOnlyMsg (chars "read-only") = true) := by
  constructor
  · intro hb
    unfold execute_gate
    rw [hb]
    exact ⟨rfl, rfl⟩
  · intro hb hw
    unfold execute_gate
    rw [hb, hw]
    exact ⟨rfl, by decide⟩

/-- Claim C7 (witness): the amended theorem applied to the blocked command
`rm -rf /` and to the unblocked write command `rm file.txt`. -/
theorem execute_gate_policy_witness :
    (execute_gate ShellMode.readWrite (chars "rm -rf /") = .rejected denyListMsg ∧
      execute_gate ShellMode.readOnly (chars "rm -rf /") = .rejected denyListMsg) ∧
    (execute_gate ShellMode.readOnly (chars "rm file.txt") = .rejected readOnlyMsg ∧
      containsL readOnlyMsg (chars "read-only") = true) :=
  ⟨(execute_gate_policy (chars "rm -rf /")).1 (by decide),
   (execute_gate_policy (chars "rm file.txt")).2 (by decide) (by decide)⟩

/-- Claim C8 (confirmed). With a thinker that answers `Act` on every call,
`run` consults the thinker exactly `max_iterations` times and then fails with
the max-iterations error naming that bound; and for EVERY thinker the number
of iterations never exceeds `max_iterations`. -/
theorem max_iterations_cap (m : Nat) (think : Nat → List MemoryEntry → Step)
    (exec : ToolCall → ToolResult) (task : Str) (session : List SessionEntry) :
    ((∀ i hist, (think i hist).isAct = true) →
      (react_run m think exec task session).result = .error (maxIterMsg m) ∧
      (react_run m think exec task session).thinkCalls = m) ∧
    (react_run m think exec task session).thinkCalls ≤ m := by
  constructor
  · intro h
    have hr := runAux_always_act m think exec h m 0 [.task task] session 0
    exact ⟨hr.1, by simpa using hr.2⟩
  · simpa using runAux_calls_le m think exec m 0 [.task task] session 0

/-- Claim C8 (witness): the cap theorem applied to the always-acting thinker
with bound 2. -/
theorem max_iterations_cap_witness :
    (react_run 2 alwaysActThink constExec (chars "t") []).result =
      .error (maxIterMsg 2) ∧
    (react_run 2 alwaysActThink constExec (chars "t") []).thinkCalls = 2 :=
  (max_iterations_cap 2 alwaysActThink constExec (chars "t") []).1
    (fun _ _ => rfl)

/-- Claim C9 (confirmed). The child environment contains no variable outside
the allow-list, and it depends only on the restriction of the ambient
environment to the allow-list: two ambient environments agreeing on the
allow-listed variables produce identical child environments. -/
theorem filtered_env_allowlist (env : Str → Option Str) (V : Str) :
    (V ∉ safeEnvVars → lookupL (filtered_env env) V = none) ∧
    (∀ env2 : Str → Option Str, (∀ k ∈ safeEnvVars, env k = env2 k) →
      filtered_env env = filtered_env env2) := by
  constructor
  · intro h
    exact lookupL_filterMap_not_mem safeEnvVars env V h
  · intro env2 h
    exact filterMap_env_congr safeEnvVars env env2 h

/-- Claim C9 (witness): an ambient environment carrying `PATH` and an AWS
secret leaks nothing, and removing the secret leaves the child environment
unchanged. -/
theorem filtered_env_allowlist_witness :
    lookupL (filtered_env envWithSecret) (chars "AWS_SECRET_ACCESS_KEY") = none ∧
    filtered_env envWithSecret = filtered_env envWithoutSecret :=
  ⟨(filtered_env_allowlist envWithSecret (chars "AWS_SECRET_ACCESS_KEY")).1 (by decide),
   (filtered_env_allowlist envWithSecret (chars "AWS_SECRET_ACCESS_KEY")).2
     envWithoutSecret (by decide)⟩

/-- Claim C10 (confirmed). A call element whose `tool` is a string but which
lacks an `args` field entirely is silently dropped; an element whose `args`
is present but not an object is kept with an empty argument map; and a
non-empty `calls` array all of whose elements are dropped makes parsing fail
with the "no valid tool calls" error. -/
theorem dropped_calls :
    (∀ (c : Json) (t : Str),
      Json.get c (chars "tool") = some (.str t) →
      Json.get c (chars "args") = none →
      decodeCall c = none) ∧
    (∀ (c : Json) (t : Str) (a : Json),
      Json.get c (chars "tool") = some (.str t) →
      Json.get c (chars "args") = some a →
      Json.isObj a = false →
      decodeCall c = some ⟨t, []⟩) ∧
    (∀ (text : Str) (v act : Json) (calls : List Json),
      serde_from_str (extract_json text) = some v →
      Json.get v (chars "answer") = none →
      Json.get v (chars "action") = some act →
      Json.get act (chars "calls") = some (.arr calls) →
      calls ≠ [] →
      calls.filterMap decodeCall = [] →
      parse_response text = .error (noValidMsg text)) := by
  refine ⟨?_, ?_, ?_⟩
  · intro c t h1 h2
    unfold decodeCall
    rw [h1, h2]
  · intro c t a h1 h2 hobj
    unfold decodeCall
    rw [h1, h2]
    cases a with
    | obj fields => simp [Json.isObj] at hobj
    | null => rfl
    | bool b => rfl
    | num n => rfl
    | str s => rfl
    | arr xs => rfl
  · intro text v act calls hv hans hact hcalls _ hfm
    unfold parse_response
    rw [hv]
    show decodeStep text v = _
    unfold decodeStep
    simp [hans, hact, hcalls, hfm]

/-- Claim C10 (witness): a tool-only element decodes to nothing, a
numeric-`args` element decodes with an empty map, and a one-element action in
which that element is dropped fails with the parse error. -/
theorem dropped_calls_witness :
    decodeCall (.obj [(chars "tool", .str (chars "shell"))]) = none ∧
    decodeCall (.obj [(chars "tool", .str (chars "shell")), (chars "args", .num 5)]) =
      some ⟨chars "shell", []⟩ ∧
    parse_response (chars c10Text) = .error (noValidMsg (chars c10Text)) :=
  ⟨dropped_calls.1 (.obj [(chars "tool", .str (chars "shell"))]) (chars "shell") rfl rfl,
   dropped_calls.2.1 (.obj [(chars "tool", .str (chars "shell")), (chars "args", .num 5)])
     (chars "shell") (.num 5) rfl rfl rfl,
   dropped_calls.2.2 (chars c10Text) c10Val
     (.obj [(chars "calls", .arr [.obj [(chars "tool", .str (chars "shell"))]])])
     [.obj [(chars "tool", .str (chars "shell"))]] rfl rfl rfl rfl
     (List.cons_ne_nil _ _) rfl⟩
